import Mathlib

/-!
# Verification of the Gimmel Schroeder reverberator core

A shallow embedding of the reverb core of the Gimmel audio-effects library
(`include/Reverb.hpp` and the `CircularBuffer` class of `include/utility.hpp`),
together with proofs and refutations of the specified properties.

Modelling conventions:

* C `float`/`double` arithmetic is modelled over `ℚ` where the source computes
  only with field operations on rational inputs (rounding error is not modelled),
  and over `ℝ` where the source calls transcendental functions (`tanf`, `powf`).
* C `int` values are modelled as `ℤ`; `size_t` values as `ℕ`.  The conversion
  `(size_t)(int)` is two's-complement (mod `2^64`) as on all supported targets.
* `::round` rounds half away from zero; assignment of a floating value to an
  `int` truncates toward zero.  Both are modelled explicitly below.
* Stateful C++ methods become functions returning the result together with the
  updated object.
-/

namespace Gimmel

/-! ## CircularBuffer (utility.hpp)

`CircularBuffer<T>` instantiated at a real sample type.  The backing array is a
list, `writeIndex` is the cursor.  `bufferSize` is the length of the list. -/

structure CircularBuffer where
  data : List ℝ
  writeIndex : ℕ

/-- Embeds `CircularBuffer::size()`. -/
def CircularBuffer.size (b : CircularBuffer) : ℕ := b.data.length

/-- Embeds `CircularBuffer::writeSample`: store at the cursor, advance, wrap to 0 when
the cursor reaches `bufferSize`. -/
def CircularBuffer.writeSample (b : CircularBuffer) (input : ℝ) : CircularBuffer :=
  let d := b.data.set b.writeIndex input
  let wi := b.writeIndex + 1
  { data := d, writeIndex := if b.data.length ≤ wi then 0 else wi }

/-- Embeds `CircularBuffer::readSample(size_t)`: clamp the delay to `bufferSize - 1`,
then index `writeIndex - delay`, adding `bufferSize` once if negative.  The
source computes `writeIndex - delayInSamples` in `size_t` arithmetic and stores
it in a `long int`; for any allocated buffer (`bufferSize < 2^63`,
`writeIndex < bufferSize`) that equals the integer subtraction used here. -/
def CircularBuffer.readSample (b : CircularBuffer) (delayInSamples : ℕ) : ℝ :=
  let d := if b.data.length ≤ delayInSamples then b.data.length - 1 else delayInSamples
  let ri : ℤ := (b.writeIndex : ℤ) - (d : ℤ)
  let ri' : ℤ := if ri < 0 then ri + (b.data.length : ℤ) else ri
  b.data.getD ri'.toNat 0

/-- The conversion `(size_t)(int)` performed by `readSample(int)`:
two's-complement conversion, i.e. reduction mod `2^64`. -/
def intToSizeT (d : ℤ) : ℕ := (d % (2 ^ 64 : ℤ)).toNat

/-- Embeds `CircularBuffer::readSample(int)`: delegates to the `size_t` overload after
converting the argument. -/
def CircularBuffer.readSampleInt (b : CircularBuffer) (d : ℤ) : ℝ :=
  b.readSample (intToSizeT d)

/-! ## Reverb::CombFilter (Reverb.hpp) -/

/-- Embeds `Reverb::CombFilter<T>`.  The non-owning pointer `pDelayLineX` to the shared
input delay line is not stored here; the shared buffer is passed to
`processSample` explicitly (in the source all comb filters alias the master
input delay line of the owning `Reverb`). -/
structure CombFilter where
  delayLineY : CircularBuffer
  CombFeedbackGain : ℝ
  LPFFeedbackGain : ℝ
  delayIndex : ℤ

/-- Embeds `CombFilter::processSample`.  The C++ signature takes a sample argument
`in`, which the body never reads; the filter reads the shared input delay line
`x` (its `pDelayLineX`) instead.  All three reads use the `int` overload of
`readSample`. -/
noncomputable def CombFilter.processSample (c : CombFilter) (x : CircularBuffer) :
    ℝ × CombFilter :=
  let returnVal :=
    x.readSampleInt c.delayIndex
      + c.LPFFeedbackGain * (c.delayLineY.readSampleInt 1 - x.readSampleInt (c.delayIndex + 1))
      + c.CombFeedbackGain * c.delayLineY.readSampleInt c.delayIndex
  (returnVal, { c with delayLineY := c.delayLineY.writeSample returnVal })

/-! ## Reverb::APF (Reverb.hpp) -/

/-- Embeds `Reverb::APF<T>`.  The stub holds an input pointer (not modelled, it is
never read) and an owned output delay line, exposed by pointer for chaining. -/
structure APF where
  delayLineOut : CircularBuffer

/-- Embeds `APF::processSample`: the body is exactly `return in;` — no state is
touched. -/
def APF.processSample (a : APF) (input : ℝ) : ℝ × APF := (input, a)

/-! ## Reverb (Reverb.hpp) -/

structure Reverb where
  enabled : Bool
  param__time : ℚ
  param__damping : ℚ
  param__length : ℚ
  delayLineInput : CircularBuffer
  sampleRate : ℤ
  parallelCombFilters : List CombFilter
  delayLineSummedCombFilterOutput : CircularBuffer
  beforeAPFs : List APF
  afterAPFs : List APF

/-- Embeds `::round` as called by `setTime`: rounds half away from zero (Lean's
`round` rounds half up, which differs on negatives). -/
def croundQ (x : ℚ) : ℤ := if x < 0 then -round (-x) else round x

/-- Truncation toward zero, the semantics of assigning a C floating value to an
`int`. -/
noncomputable def ctruncR (x : ℝ) : ℤ := if x < 0 then ⌈x⌉ else ⌊x⌋

/-- Embeds the first delay index of `setTime`:
`delayIndices[0] = ::round(this->sampleRate * this->param__time)`.
Note the source multiplies the sample rate by the raw parameter value with no
millisecond conversion. -/
def setTimeDelay0 (sampleRate : ℤ) (t : ℚ) : ℤ :=
  croundQ ((sampleRate : ℚ) * t)

/-- Embeds the last delay index of `setTime`:
`delayIndices[numCombFilters - 1] = ::round(delayIndices[0] / 1.5f)`. -/
def setTimeMinDelay (sampleRate : ℤ) (t : ℚ) : ℤ :=
  croundQ ((setTimeDelay0 sampleRate t : ℚ) / (3 / 2))

/-- Embeds the intermediate delay indices of `setTime` (`1 ≤ i ≤ numCombFilters - 2`):
`delayIndices[i] = delayIndices[0] * (::tanf(i * division) + 2) / 3` with
`division = M_PI_4 / (numCombFilters - 1)`, truncated toward zero by the
assignment to `int`. -/
noncomputable def setTimeIntermDelay (sampleRate : ℤ) (t : ℚ) (N i : ℕ) : ℤ :=
  ctruncR ((setTimeDelay0 sampleRate t : ℝ) *
    (Real.tan ((i : ℝ) * (Real.pi / 4 / ((N - 1 : ℕ) : ℝ))) + 2) / 3)

/-- The delay index `setTime` assigns to comb filter `i` of `N`.  The source
writes index `0`, then index `N - 1`, then the loop fills `1 ≤ i ≤ N - 2`; the
`N - 1` case is tested first so that for `N = 1` the later write to slot `0`
wins, as in the source. -/
noncomputable def setTimeDelayIndex (sampleRate : ℤ) (t : ℚ) (N i : ℕ) : ℤ :=
  if i = N - 1 then setTimeMinDelay sampleRate t
  else if i = 0 then setTimeDelay0 sampleRate t
  else setTimeIntermDelay sampleRate t N i

/-- Embeds `Reverb::setTime`. -/
noncomputable def Reverb.setTime (r : Reverb) (t : ℚ) : Reverb :=
  { r with
    param__time := t
    parallelCombFilters := r.parallelCombFilters.mapIdx fun i c =>
      { c with delayIndex := setTimeDelayIndex r.sampleRate t r.parallelCombFilters.length i } }

/-- The clamp at the head of `Reverb::setDamping`: inputs `< 0` become `0`,
inputs `>= 1` become the constant `0.999999`, all other inputs pass through. -/
def dampingClamp (damping : ℚ) : ℚ :=
  if damping < 0 then 0
  else if 1 ≤ damping then 999999 / 1000000
  else damping

/-- Embeds `Reverb::setDamping`: after clamping, every comb filter's LPF feedback gain
becomes `damping * (1 - g1)` where `g1` is that filter's current comb feedback
gain. -/
noncomputable def Reverb.setDamping (r : Reverb) (damping : ℚ) : Reverb :=
  { r with
    param__damping := dampingClamp damping
    parallelCombFilters := r.parallelCombFilters.map fun c =>
      { c with LPFFeedbackGain :=
          ((dampingClamp damping : ℚ) : ℝ) * (1 - c.CombFeedbackGain) } }

/-- Embeds `Reverb::RoomType`. -/
inductive RoomType
  | CUBE
  | SPHERE

/-- The RT-60 decay time computed by `Reverb::setRoom` from the (already
clamped) length, the room type and the absorption coefficient. -/
def rt60 (length : ℚ) (ty : RoomType) (absorption : ℚ) : ℚ :=
  match ty with
  | RoomType.SPHERE => length / (6 * absorption)
  | RoomType.CUBE => length / (12 * absorption)

/-- The magnitude `powf(10, -3 * delayIndex / (sampleRate * RT60))` of the comb
feedback gain computed by `setRoom`.  When `sampleRate * RT60 = 0` and
`delayIndex ≥ 1` the C expression divides a negative finite float by `+0.0`,
yielding `-inf`, and `powf(10, -inf) = +0.0`; the zero branch reproduces that
(the source never evaluates this case with `delayIndex < 0`, and with
`delayIndex = 0` it would yield NaN, which no claim touches). -/
noncomputable def combGainMag (sampleRate : ℤ) (RT60 : ℚ) (delayIndex : ℤ) : ℝ :=
  if (sampleRate : ℚ) * RT60 = 0 then 0
  else (10 : ℝ) ^ ((((-3 : ℤ) * delayIndex : ℤ) : ℝ) / (((sampleRate : ℚ) * RT60 : ℚ) : ℝ))

/-- Embeds `Reverb::setRoom`: clamp the length at `0`, compute `RT60` by room type,
then give comb filter `i` the feedback gain `±powf(10, -3*D_i/(sr*RT60))` where
`D_i` is the filter's current delay index — positive for odd `i` (`i % 2`
truthy), negative for even `i`. -/
noncomputable def Reverb.setRoom (r : Reverb) (length : ℚ) (ty : RoomType)
    (absorption : ℚ) : Reverb :=
  let length' := if length < 0 then 0 else length
  let RT60 := rt60 length' ty absorption
  { r with
    param__length := length'
    parallelCombFilters := r.parallelCombFilters.mapIdx fun i c =>
      { c with CombFeedbackGain :=
          if i % 2 = 1 then combGainMag r.sampleRate RT60 c.delayIndex
          else -combGainMag r.sampleRate RT60 c.delayIndex } }

/-- The comb-bank fan-out inside `Reverb::processSample`: every filter reads the
same shared input delay line `x`, outputs are accumulated into `summedValue`
(which starts at `0`). -/
noncomputable def processCombBank (combs : List CombFilter) (x : CircularBuffer) :
    ℝ × List CombFilter :=
  match combs with
  | [] => (0, [])
  | c :: rest =>
    let yc := c.processSample x
    let s := processCombBank rest x
    (yc.1 + s.1, yc.2 :: s.2)

/-- A series APF chain inside `Reverb::processSample`: each stage processes the
previous stage's output. -/
def processAPFChain (apfs : List APF) (input : ℝ) : ℝ × List APF :=
  match apfs with
  | [] => (input, [])
  | a :: rest =>
    let ya := a.processSample input
    let s := processAPFChain rest ya.1
    (s.1, ya.2 :: s.2)

/-- Embeds `Reverb::processSample`: write the input into the master delay line first;
if the effect is disabled return the input unchanged; otherwise run the
pre-APF chain, fan out to the comb bank (which reads the just-updated master
delay line), sum, and run the post-APF chain. -/
noncomputable def Reverb.processSample (r : Reverb) (input : ℝ) : ℝ × Reverb :=
  let dli := r.delayLineInput.writeSample input
  if r.enabled = false then
    (input, { r with delayLineInput := dli })
  else
    let pb := processAPFChain r.beforeAPFs input
    let cb := processCombBank r.parallelCombFilters dli
    let pa := processAPFChain r.afterAPFs cb.1
    (pa.1,
      { r with
        delayLineInput := dli
        beforeAPFs := pb.2
        parallelCombFilters := cb.2
        afterAPFs := pa.2 })

/-! ## Helper lemmas and concrete objects -/

/-- Reading a mapped list at an in-range position. -/
lemma getD_map_lt {α β : Type} (f : α → β) (l : List α) (i : ℕ) (h : i < l.length)
    (d : β) (d' : α) : (l.map f).getD i d = f (l.getD i d') := by
  rw [List.getD_eq_getElem _ _ (by simpa using h), List.getD_eq_getElem _ _ h,
    List.getElem_map]

/-- Reading an index-mapped list at an in-range position. -/
lemma getD_mapIdx_lt {α β : Type} (f : ℕ → α → β) (l : List α) (i : ℕ)
    (h : i < l.length) (d : β) (d' : α) :
    (l.mapIdx f).getD i d = f i (l.getD i d') := by
  rw [List.getD_eq_get _ _ (by simpa [List.length_mapIdx] using h),
    List.getD_eq_get _ _ h, List.get_mapIdx]

/-- C truncation toward zero agrees with the floor on nonnegative values. -/
lemma ctruncR_of_nonneg {x : ℝ} (h : 0 ≤ x) : ctruncR x = ⌊x⌋ := by
  unfold ctruncR
  rw [if_neg (not_lt.2 h)]

/-- C rounding agrees with Lean rounding on nonnegative values. -/
lemma croundQ_of_nonneg {x : ℚ} (h : 0 ≤ x) : croundQ x = round x := by
  unfold croundQ
  rw [if_neg (not_lt.2 h)]

/-- Lean rounding never exceeds the value by more than a half. -/
lemma round_le_add_half (q : ℚ) : (round q : ℚ) ≤ q + 1 / 2 := by
  have h := abs_sub_round q
  rw [abs_le] at h
  linarith [h.1]

/-- Default comb filter, used as the out-of-range fallback of `List.getD`. -/
def cfDefault : CombFilter :=
  { delayLineY := { data := [], writeIndex := 0 }
    CombFeedbackGain := 0
    LPFFeedbackGain := 0
    delayIndex := 0 }

/-- A concrete comb filter with comb feedback gain `-0.5` and delay index
`1440`, used to instantiate theorems. -/
noncomputable def baseComb : CombFilter :=
  { delayLineY := { data := [0, 0, 0], writeIndex := 0 }
    CombFeedbackGain := -(1 / 2)
    LPFFeedbackGain := 0
    delayIndex := 1440 }

/-- A concrete disabled `Reverb` with a single comb filter, used to instantiate
theorems. -/
noncomputable def baseReverb : Reverb :=
  { enabled := false
    param__time := 0
    param__damping := 0
    param__length := 1
    delayLineInput := { data := [0, 0, 0], writeIndex := 0 }
    sampleRate := 48000
    parallelCombFilters := [baseComb]
    delayLineSummedCombFilterOutput := { data := [0, 0, 0], writeIndex := 0 }
    beforeAPFs := []
    afterAPFs := [] }

/-! ## The claims -/

/-- C2, counterexample.  The claim states that `APF::processSample` both
returns its input unchanged and writes the input into its own output
`DelayLine`.  At the concrete stage whose output delay line is the zeroed
two-sample buffer with cursor `0` and input `1`, the stub performs no write:
its output delay line afterwards is not the written buffer. -/
theorem apf_claim_false_at_one :
    ¬ ((APF.processSample { delayLineOut := { data := [0, 0], writeIndex := 0 } } 1).1 = 1 ∧
      (APF.processSample { delayLineOut := { data := [0, 0], writeIndex := 0 } } 1).2.delayLineOut =
        CircularBuffer.writeSample { data := [0, 0], writeIndex := 0 } 1) := by
  intro h
  have h2 := h.2
  simp only [APF.processSample, CircularBuffer.writeSample, List.length_cons,
    List.length_nil] at h2
  have := congrArg CircularBuffer.writeIndex h2
  simp at this

/-- C2, amended.  `APF::processSample` returns its input unchanged and leaves
the whole stage — in particular its output `DelayLine` — exactly as it was; the
stub performs no write. -/
theorem apf_processSample_id (a : APF) (input : ℝ) :
    a.processSample input = (input, a) := rfl

/-- C6.  `CombFilter::processSample`, given the shared input delay line `x`,
delay index `D`, comb feedback gain `g1`, LPF feedback gain `g2` and private
output delay line `y1`, returns
`y = x.read(D) + g2 * (y1.read(1) - x.read(D + 1)) + g1 * y1.read(D)` and
writes `y` into `y1` (leaving the gains and the delay index unchanged). -/
theorem combFilter_processSample_eq (c : CombFilter) (x : CircularBuffer) :
    c.processSample x =
      (x.readSampleInt c.delayIndex
          + c.LPFFeedbackGain *
            (c.delayLineY.readSampleInt 1 - x.readSampleInt (c.delayIndex + 1))
          + c.CombFeedbackGain * c.delayLineY.readSampleInt c.delayIndex,
        { c with delayLineY := c.delayLineY.writeSample (x.readSampleInt c.delayIndex
            + c.LPFFeedbackGain *
              (c.delayLineY.readSampleInt 1 - x.readSampleInt (c.delayIndex + 1))
            + c.CombFeedbackGain * c.delayLineY.readSampleInt c.delayIndex) }) := rfl

/-- C8.  A disabled `Reverb` returns its input exactly, still writes the input
into the master input delay line (advancing the write cursor), and leaves every
other piece of state — comb filters, APF chains, the summed-output delay line
and all three parameters — unchanged. -/
theorem reverb_disabled_bypass (r : Reverb) (input : ℝ) (h : r.enabled = false) :
    (r.processSample input).1 = input ∧
    (r.processSample input).2.delayLineInput = r.delayLineInput.writeSample input ∧
    (r.processSample input).2.parallelCombFilters = r.parallelCombFilters ∧
    (r.processSample input).2.beforeAPFs = r.beforeAPFs ∧
    (r.processSample input).2.afterAPFs = r.afterAPFs ∧
    (r.processSample input).2.delayLineSummedCombFilterOutput =
      r.delayLineSummedCombFilterOutput ∧
    (r.processSample input).2.param__time = r.param__time ∧
    (r.processSample input).2.param__damping = r.param__damping ∧
    (r.processSample input).2.param__length = r.param__length ∧
    (r.processSample input).2.enabled = r.enabled ∧
    (r.processSample input).2.sampleRate = r.sampleRate := by
  simp [Reverb.processSample, h]

/-- C8, witness at the concrete disabled reverb and input `1`. -/
theorem reverb_disabled_bypass_witness :
    (baseReverb.processSample 1).1 = 1 ∧
    (baseReverb.processSample 1).2.delayLineInput =
      baseReverb.delayLineInput.writeSample 1 ∧
    (baseReverb.processSample 1).2.parallelCombFilters =
      baseReverb.parallelCombFilters :=
  ⟨(reverb_disabled_bypass baseReverb 1 rfl).1,
    (reverb_disabled_bypass baseReverb 1 rfl).2.1,
    (reverb_disabled_bypass baseReverb 1 rfl).2.2.1⟩

/-- C10.  For every negative `int` delay passed to
`CircularBuffer::readSample(int)` on an allocated buffer, the two's-complement
conversion to `size_t` produces a value at least the capacity, so the read is
clamped to `capacity - 1` and returns the oldest retrievable sample; the call
is total (returns normally) on all such inputs. -/
theorem readSampleInt_neg_clamps (b : CircularBuffer) (d : ℤ)
    (hneg : d < 0) (hrange : -(2 ^ 31) ≤ d)
    (hcap1 : 1 ≤ b.size) (hcap2 : b.size ≤ 2 ^ 32) :
    b.size ≤ intToSizeT d ∧
    b.readSampleInt d = b.readSample (b.size - 1) := by
  unfold CircularBuffer.size at hcap1 hcap2
  have hmod : d % 2 ^ 64 = d + 2 ^ 64 := by omega
  have hge : b.data.length ≤ intToSizeT d := by
    unfold intToSizeT
    rw [hmod]
    omega
  refine ⟨hge, ?_⟩
  unfold CircularBuffer.readSampleInt CircularBuffer.readSample CircularBuffer.size
  rw [if_pos hge, if_neg (by omega : ¬ b.data.length ≤ b.data.length - 1)]

/-- C10, witness: a two-sample buffer read at delay `-3`. -/
theorem readSampleInt_neg_clamps_witness :
    CircularBuffer.size { data := [5, 7], writeIndex := 0 } ≤ intToSizeT (-3) ∧
    CircularBuffer.readSampleInt { data := [5, 7], writeIndex := 0 } (-3) =
      CircularBuffer.readSample { data := [5, 7], writeIndex := 0 }
        (CircularBuffer.size { data := [5, 7], writeIndex := 0 } - 1) :=
  readSampleInt_neg_clamps { data := [5, 7], writeIndex := 0 } (-3)
    (by decide) (by decide) (by decide) (by decide)

/-- C7, counterexample.  The claim states that `setDamping` clamps every input
above `0.999999` down to `0.999999`.  The input `0.9999995` lies strictly
between `0.999999` and `1`; the source's clamp (`< 0` and `>= 1` tests only)
passes it through unchanged, so the stored damping parameter exceeds
`0.999999`. -/
theorem setDamping_clamp_claim_false :
    (baseReverb.setDamping (1999999 / 2000000)).param__damping = 1999999 / 2000000 ∧
    ¬ ((baseReverb.setDamping (1999999 / 2000000)).param__damping ≤ 999999 / 1000000) := by
  constructor <;> norm_num [Reverb.setDamping, dampingClamp]

/-- C7, amended.  `setDamping` maps inputs below `0` to `0` and inputs at or
above `1` to `0.999999`, passes inputs inside `[0, 1)` through unchanged (so
inputs in `(0.999999, 1)` are not reduced to `0.999999`), always produces a
damping in `[0, 1)`, and sets each comb filter's LPF feedback gain to
`damping * (1 - g1)` where `g1` is that filter's existing comb feedback
gain. -/
theorem setDamping_clamp_and_gain (r : Reverb) (damping : ℚ) (i : ℕ)
    (hi : i < r.parallelCombFilters.length) :
    0 ≤ dampingClamp damping ∧ dampingClamp damping < 1 ∧
    (damping < 0 → dampingClamp damping = 0) ∧
    (1 ≤ damping → dampingClamp damping = 999999 / 1000000) ∧
    (0 ≤ damping → damping < 1 → dampingClamp damping = damping) ∧
    (r.setDamping damping).param__damping = dampingClamp damping ∧
    ((r.setDamping damping).parallelCombFilters.getD i cfDefault).LPFFeedbackGain =
      ((dampingClamp damping : ℚ) : ℝ) *
        (1 - (r.parallelCombFilters.getD i cfDefault).CombFeedbackGain) := by
  refine ⟨?_, ?_, ?_, ?_, ?_, rfl, ?_⟩
  · unfold dampingClamp
    split
    · exact le_refl 0
    · split <;> [norm_num; linarith [not_lt.1 (by assumption : ¬ damping < 0)]]
  · unfold dampingClamp
    split
    · norm_num
    · split <;> [norm_num; linarith [not_le.1 (by assumption : ¬ 1 ≤ damping)]]
  · intro h
    unfold dampingClamp
    rw [if_pos h]
  · intro h
    unfold dampingClamp
    rw [if_neg (by linarith), if_pos h]
  · intro h0 h1
    unfold dampingClamp
    rw [if_neg (by linarith), if_neg (by linarith)]
  · unfold Reverb.setDamping
    simp only
    rw [getD_map_lt _ _ _ hi _ cfDefault]

/-- C7, witness at the concrete reverb, damping `1/2` and filter `0`. -/
theorem setDamping_clamp_and_gain_witness :
    0 ≤ dampingClamp (1 / 2) ∧ dampingClamp (1 / 2) < 1 ∧
    ((baseReverb.setDamping (1 / 2)).parallelCombFilters.getD 0 cfDefault).LPFFeedbackGain =
      ((dampingClamp (1 / 2) : ℚ) : ℝ) *
        (1 - (baseReverb.parallelCombFilters.getD 0 cfDefault).CombFeedbackGain) :=
  ⟨(setDamping_clamp_and_gain baseReverb (1 / 2) 0 (by simp [baseReverb])).1,
    (setDamping_clamp_and_gain baseReverb (1 / 2) 0 (by simp [baseReverb])).2.1,
    (setDamping_clamp_and_gain baseReverb (1 / 2) 0 (by simp [baseReverb])).2.2.2.2.2.2⟩

/-- C3, counterexample.  The claim states that after `setDamping(damping)` with
`damping ∈ [0, 1)` every comb filter with comb feedback gain `g1 ∈ (-1, 1)`
receives an LPF feedback gain in `[0, 1)`.  With `damping = 0.9` and the
concrete filter's `g1 = -0.5` (a sign `setRoom` actually produces on
even-indexed filters), the computed gain is `0.9 * 1.5 = 1.35 ≥ 1`. -/
theorem setDamping_g2_claim_false :
    (0 : ℚ) ≤ 9 / 10 ∧ (9 : ℚ) / 10 < 1 ∧
    -1 < baseComb.CombFeedbackGain ∧ baseComb.CombFeedbackGain < 1 ∧
    ((baseReverb.setDamping (9 / 10)).parallelCombFilters.getD 0 cfDefault).LPFFeedbackGain =
      27 / 20 ∧
    ¬ (((baseReverb.setDamping (9 / 10)).parallelCombFilters.getD 0
        cfDefault).LPFFeedbackGain < 1) := by
  refine ⟨by norm_num, by norm_num, by norm_num [baseComb], by norm_num [baseComb], ?_, ?_⟩ <;>
    norm_num [Reverb.setDamping, baseReverb, baseComb, dampingClamp]

/-- C3, amended.  For every damping in `[0, 1)`, the LPF feedback gain
`g2 = damping * (1 - g1)` computed by `setDamping` lies in `[0, 2)` (not
`[0, 1)`) for every filter whose existing comb feedback gain `g1` lies in
`(-1, 1)`; it lies in `[0, 1)` only when `g1` is nonnegative. -/
theorem setDamping_g2_in_Ico_two (r : Reverb) (damping : ℚ)
    (h0 : 0 ≤ damping) (h1 : damping < 1) (i : ℕ)
    (hi : i < r.parallelCombFilters.length)
    (hlo : -1 < (r.parallelCombFilters.getD i cfDefault).CombFeedbackGain)
    (hhi : (r.parallelCombFilters.getD i cfDefault).CombFeedbackGain < 1) :
    0 ≤ ((r.setDamping damping).parallelCombFilters.getD i cfDefault).LPFFeedbackGain ∧
    ((r.setDamping damping).parallelCombFilters.getD i cfDefault).LPFFeedbackGain < 2 ∧
    (0 ≤ (r.parallelCombFilters.getD i cfDefault).CombFeedbackGain →
      ((r.setDamping damping).parallelCombFilters.getD i cfDefault).LPFFeedbackGain < 1) := by
  have hcl : dampingClamp damping = damping := by
    unfold dampingClamp
    rw [if_neg (by linarith), if_neg (by linarith)]
  unfold Reverb.setDamping
  simp only
  rw [getD_map_lt _ _ _ hi _ cfDefault]
  simp only [hcl]
  set g := (r.parallelCombFilters.getD i cfDefault).CombFeedbackGain with hg
  have hdR0 : (0 : ℝ) ≤ ((damping : ℚ) : ℝ) := by exact_mod_cast h0
  have hdR1 : ((damping : ℚ) : ℝ) < 1 := by exact_mod_cast h1
  refine ⟨mul_nonneg hdR0 (by linarith), ?_, ?_⟩
  · nlinarith [mul_pos (sub_pos.2 hdR1) (by linarith : (0 : ℝ) < 1 - g)]
  · intro hgpos
    nlinarith [mul_le_one₀ (le_of_lt hdR1) (by linarith : (0 : ℝ) ≤ 1 - g)
      (by linarith : 1 - g ≤ 1)]

/-- C3, witness at the concrete reverb (`g1 = -0.5`) and damping `1/2`. -/
theorem setDamping_g2_in_Ico_two_witness :
    0 ≤ ((baseReverb.setDamping (1 / 2)).parallelCombFilters.getD 0
      cfDefault).LPFFeedbackGain ∧
    ((baseReverb.setDamping (1 / 2)).parallelCombFilters.getD 0
      cfDefault).LPFFeedbackGain < 2 :=
  ⟨(setDamping_g2_in_Ico_two baseReverb (1 / 2) (by norm_num) (by norm_num) 0
      (by simp [baseReverb]) (by norm_num [baseReverb, baseComb])
      (by norm_num [baseReverb, baseComb])).1,
    (setDamping_g2_in_Ico_two baseReverb (1 / 2) (by norm_num) (by norm_num) 0
      (by simp [baseReverb]) (by norm_num [baseReverb, baseComb])
      (by norm_num [baseReverb, baseComb])).2.1⟩

/-- C1, code bug.  The claim (and the source's own comment that `setTime`
takes milliseconds) requires `delay[0] = round(sampleRate * t / 1000)`, which
at `sampleRate = 48000`, `t = 30.0` is `1440`.  The source computes
`::round(this->sampleRate * this->param__time)` with no division by `1000`,
yielding `1440000` — a thousand times too large (and beyond the allocated
5-second delay-line capacity of `240000` samples). -/
theorem setTime_delay0_no_ms_conversion :
    setTimeDelay0 48000 30 = 1440000 ∧ (1440000 : ℤ) ≠ 1440 := by
  constructor
  · norm_num [setTimeDelay0, croundQ, round_eq]
  · decide

/-- C5.  `setRoom(length, shape, absorption)` clamps the length at `0`, stores
it, computes `RT60 = length / (6 * absorption)` for `SPHERE` and
`length / (12 * absorption)` for `CUBE`, and sets comb filter `i`'s feedback
gain to `10 ^ (-3 * D_i / (sampleRate * RT60))` — where `D_i` is the filter's
current (unchanged) delay index — with positive sign for odd `i` and negative
sign for even `i`.  (The hypothesis rules out the degenerate zero of
`sampleRate * RT60`, where the C expression produces `powf(10, -inf) = 0`
instead of the formula.) -/
theorem setRoom_spec (r : Reverb) (L a : ℚ) (ty : RoomType) (i : ℕ)
    (hi : i < r.parallelCombFilters.length)
    (hnz : (r.sampleRate : ℚ) * rt60 (max L 0) ty a ≠ 0) :
    (r.setRoom L ty a).param__length = max L 0 ∧
    rt60 (max L 0) RoomType.SPHERE a = max L 0 / (6 * a) ∧
    rt60 (max L 0) RoomType.CUBE a = max L 0 / (12 * a) ∧
    ((r.setRoom L ty a).parallelCombFilters.getD i cfDefault).delayIndex =
      (r.parallelCombFilters.getD i cfDefault).delayIndex ∧
    ((r.setRoom L ty a).parallelCombFilters.getD i cfDefault).CombFeedbackGain =
      (if i % 2 = 1 then (1 : ℝ) else -1) *
        (10 : ℝ) ^ ((((-3 : ℤ) * (r.parallelCombFilters.getD i cfDefault).delayIndex : ℤ) : ℝ) /
          (((r.sampleRate : ℚ) * rt60 (max L 0) ty a : ℚ) : ℝ)) := by
  have hmax : (if L < 0 then 0 else L) = max L 0 := by
    split
    · exact (max_eq_right (by linarith)).symm
    · exact (max_eq_left (by linarith)).symm
  refine ⟨?_, rfl, rfl, ?_, ?_⟩
  · simp only [Reverb.setRoom, hmax]
  · unfold Reverb.setRoom
    simp only [hmax]
    rw [getD_mapIdx_lt _ _ _ hi _ cfDefault]
  · unfold Reverb.setRoom
    simp only [hmax]
    rw [getD_mapIdx_lt _ _ _ hi _ cfDefault]
    simp only [combGainMag, if_neg hnz]
    split <;> ring

/-- C5, witness: the concrete reverb, `length = 100` ft, `SPHERE`,
`absorption = 0.75`, filter `0` (even, so the gain is negative). -/
theorem setRoom_spec_witness :
    (baseReverb.setRoom 100 RoomType.SPHERE (3 / 4)).param__length = max 100 0 ∧
    ((baseReverb.setRoom 100 RoomType.SPHERE (3 / 4)).parallelCombFilters.getD 0
        cfDefault).CombFeedbackGain =
      (if 0 % 2 = 1 then (1 : ℝ) else -1) *
        (10 : ℝ) ^ ((((-3 : ℤ) *
            (baseReverb.parallelCombFilters.getD 0 cfDefault).delayIndex : ℤ) : ℝ) /
          (((baseReverb.sampleRate : ℚ) *
            rt60 (max 100 0) RoomType.SPHERE (3 / 4) : ℚ) : ℝ)) :=
  ⟨(setRoom_spec baseReverb 100 (3 / 4) RoomType.SPHERE 0 (by simp [baseReverb])
      (by norm_num [rt60, baseReverb])).1,
    (setRoom_spec baseReverb 100 (3 / 4) RoomType.SPHERE 0 (by simp [baseReverb])
      (by norm_num [rt60, baseReverb])).2.2.2.2⟩

/-- C4.  For every `absorption > 0` and `length ≥ 0` (and a positive sample
rate), `setRoom` computes `RT60 ≥ 0`, and every comb feedback gain it derives
satisfies `|gain_i| < 1` whenever that filter's current delay index is at least
`1` — each comb loop is BIBO stable. -/
theorem setRoom_stability (r : Reverb) (L a : ℚ) (ty : RoomType) (i : ℕ)
    (hsr : 0 < r.sampleRate) (ha : 0 < a) (hL : 0 ≤ L)
    (hi : i < r.parallelCombFilters.length)
    (hD : 1 ≤ (r.parallelCombFilters.getD i cfDefault).delayIndex) :
    0 ≤ rt60 (max L 0) ty a ∧
    |((r.setRoom L ty a).parallelCombFilters.getD i cfDefault).CombFeedbackGain| < 1 := by
  have hmax : (if L < 0 then 0 else L) = max L 0 := by
    split
    · exact (max_eq_right (by linarith)).symm
    · exact (max_eq_left (by linarith)).symm
  have hRT : 0 ≤ rt60 (max L 0) ty a := by
    cases ty <;>
      exact div_nonneg (le_max_right L 0) (by positivity)
  refine ⟨hRT, ?_⟩
  unfold Reverb.setRoom
  simp only [hmax]
  rw [getD_mapIdx_lt _ _ _ hi _ cfDefault]
  have hmag : 0 ≤ combGainMag r.sampleRate (rt60 (max L 0) ty a)
      (r.parallelCombFilters.getD i cfDefault).delayIndex ∧
      combGainMag r.sampleRate (rt60 (max L 0) ty a)
        (r.parallelCombFilters.getD i cfDefault).delayIndex < 1 := by
    unfold combGainMag
    split
    · norm_num
    · rename_i hnz
      have hprod : (0 : ℚ) < (r.sampleRate : ℚ) * rt60 (max L 0) ty a := by
        rcases lt_or_eq_of_le hRT with h | h
        · exact mul_pos (by exact_mod_cast hsr) h
        · exact absurd (by rw [← h, mul_zero]) hnz
      have hprodR : (0 : ℝ) < (((r.sampleRate : ℚ) * rt60 (max L 0) ty a : ℚ) : ℝ) := by
        exact_mod_cast hprod
      have hnum : ((((-3 : ℤ) *
          (r.parallelCombFilters.getD i cfDefault).delayIndex : ℤ) : ℝ)) < 0 := by
        have : ((-3 : ℤ) * (r.parallelCombFilters.getD i cfDefault).delayIndex : ℤ) ≤ -3 := by
          nlinarith
        calc ((((-3 : ℤ) * (r.parallelCombFilters.getD i cfDefault).delayIndex : ℤ) : ℝ))
            ≤ ((-3 : ℤ) : ℝ) := by exact_mod_cast this
          _ < 0 := by norm_num
      constructor
      · exact le_of_lt (Real.rpow_pos_of_pos (by norm_num) _)
      · exact Real.rpow_lt_one_of_one_lt_of_neg (by norm_num)
          (div_neg_of_neg_of_pos hnum hprodR)
  split
  · rw [abs_of_nonneg hmag.1]
    exact hmag.2
  · rw [abs_neg, abs_of_nonneg hmag.1]
    exact hmag.2

/-- C4, witness: the concrete reverb (delay index `1440`), `length = 100`,
`SPHERE`, `absorption = 0.75`, filter `0`. -/
theorem setRoom_stability_witness :
    0 ≤ rt60 (max 100 0) RoomType.SPHERE (3 / 4) ∧
    |((baseReverb.setRoom 100 RoomType.SPHERE (3 / 4)).parallelCombFilters.getD 0
        cfDefault).CombFeedbackGain| < 1 :=
  setRoom_stability baseReverb 100 (3 / 4) RoomType.SPHERE 0 (by norm_num [baseReverb])
    (by norm_num) (by norm_num) (by simp [baseReverb])
    (by norm_num [baseReverb, baseComb])

/-! ## Helper lemmas for the tangent-warp delay distribution -/

/-- Difference of tangents as a sine quotient. -/
lemma tan_sub_tan {a b : ℝ} (ha : Real.cos a ≠ 0) (hb : Real.cos b ≠ 0) :
    Real.tan b - Real.tan a = Real.sin (b - a) / (Real.cos a * Real.cos b) := by
  rw [Real.tan_eq_sin_div_cos, Real.tan_eq_sin_div_cos, div_sub_div _ _ hb ha,
    Real.sin_sub, mul_comm (Real.cos b) (Real.cos a)]

/-- Bounds on the tangent warp `tan(x * (pi/4) / nR)` for `x` between `1` and
`nR - 1`: the value exceeds the (positive) argument lower bound `pi/4/nR` and
stays below `tan(pi/4) = 1`. -/
lemma tan_warp_bounds (nR x : ℝ) (hnR : 2 ≤ nR) (hx1 : 1 ≤ x) (hx2 : x ≤ nR - 1) :
    Real.pi / 4 / nR < Real.tan (x * (Real.pi / 4 / nR)) ∧
    Real.tan (x * (Real.pi / 4 / nR)) < 1 := by
  have hπ := Real.pi_pos
  have hnRpos : (0 : ℝ) < nR := by linarith
  have hdpos : 0 < Real.pi / 4 / nR := by positivity
  have hθ_lb : Real.pi / 4 / nR ≤ x * (Real.pi / 4 / nR) :=
    le_mul_of_one_le_left hdpos.le hx1
  have hfrac : (nR - 1) / nR < 1 := by
    rw [div_lt_one hnRpos]
    linarith
  have hθ_ub : x * (Real.pi / 4 / nR) < Real.pi / 4 := by
    calc x * (Real.pi / 4 / nR) ≤ (nR - 1) * (Real.pi / 4 / nR) :=
          mul_le_mul_of_nonneg_right hx2 hdpos.le
      _ = Real.pi / 4 * ((nR - 1) / nR) := by ring
      _ < Real.pi / 4 * 1 := by
          exact mul_lt_mul_of_pos_left hfrac (by positivity)
      _ = Real.pi / 4 := mul_one _
  have hθhalf : x * (Real.pi / 4 / nR) < Real.pi / 2 := by linarith
  have hdhalf : Real.pi / 4 / nR < Real.pi / 2 := by linarith [hθ_lb]
  constructor
  · rcases eq_or_lt_of_le hθ_lb with h | h
    · rw [← h]
      exact Real.lt_tan hdpos hdhalf
    · exact (Real.lt_tan hdpos hdhalf).trans
        (Real.tan_lt_tan_of_nonneg_of_lt_pi_div_two hdpos.le hθhalf h)
  · have h1 := Real.tan_lt_tan_of_nonneg_of_lt_pi_div_two
      (mul_nonneg (by linarith) hdpos.le) (by linarith) hθ_ub
    rwa [Real.tan_pi_div_four] at h1

/-- A quantitative gap between consecutive tangent-warp values: positions at
least one apart differ by at least `1/(2*nR)`. -/
lemma tan_warp_gap (nR x y : ℝ) (hnR : 2 ≤ nR) (hx1 : 1 ≤ x) (hxy : x + 1 ≤ y)
    (hy : y ≤ nR - 1) :
    1 / (2 * nR) ≤ Real.tan (y * (Real.pi / 4 / nR)) - Real.tan (x * (Real.pi / 4 / nR)) := by
  have hπ := Real.pi_pos
  have hnRpos : (0 : ℝ) < nR := by linarith
  have hdpos : 0 < Real.pi / 4 / nR := by positivity
  have hfrac : (nR - 1) / nR < 1 := by
    rw [div_lt_one hnRpos]
    linarith
  have ha_pos : 0 < x * (Real.pi / 4 / nR) := by
    exact mul_pos (by linarith) hdpos
  have hb_ub : y * (Real.pi / 4 / nR) < Real.pi / 4 := by
    calc y * (Real.pi / 4 / nR) ≤ (nR - 1) * (Real.pi / 4 / nR) :=
          mul_le_mul_of_nonneg_right hy hdpos.le
      _ = Real.pi / 4 * ((nR - 1) / nR) := by ring
      _ < Real.pi / 4 * 1 := mul_lt_mul_of_pos_left hfrac (by positivity)
      _ = Real.pi / 4 := mul_one _
  have ha_ub : x * (Real.pi / 4 / nR) < Real.pi / 4 := by
    have : x * (Real.pi / 4 / nR) < y * (Real.pi / 4 / nR) :=
      mul_lt_mul_of_pos_right (by linarith) hdpos
    linarith
  have hb_pos : 0 < y * (Real.pi / 4 / nR) := mul_pos (by linarith) hdpos
  have hca : 0 < Real.cos (x * (Real.pi / 4 / nR)) :=
    Real.cos_pos_of_mem_Ioo ⟨by linarith, by linarith⟩
  have hcb : 0 < Real.cos (y * (Real.pi / 4 / nR)) :=
    Real.cos_pos_of_mem_Ioo ⟨by linarith, by linarith⟩
  have hca1 := Real.cos_le_one (x * (Real.pi / 4 / nR))
  have hcb1 := Real.cos_le_one (y * (Real.pi / 4 / nR))
  have hgap_lb : Real.pi / 4 / nR ≤ y * (Real.pi / 4 / nR) - x * (Real.pi / 4 / nR) := by
    have : (y - x) * (Real.pi / 4 / nR) ≥ 1 * (Real.pi / 4 / nR) :=
      mul_le_mul_of_nonneg_right (by linarith) hdpos.le
    nlinarith
  have hgap_ub : y * (Real.pi / 4 / nR) - x * (Real.pi / 4 / nR) ≤ Real.pi / 2 := by
    linarith
  have hsin := Real.mul_le_sin (x := y * (Real.pi / 4 / nR) - x * (Real.pi / 4 / nR))
    (by linarith) hgap_ub
  have hsin_lb : 1 / (2 * nR) ≤
      Real.sin (y * (Real.pi / 4 / nR) - x * (Real.pi / 4 / nR)) := by
    have hval : 2 / Real.pi * (Real.pi / 4 / nR) = 1 / (2 * nR) := by
      field_simp
      ring
    have hmono : 2 / Real.pi * (Real.pi / 4 / nR) ≤
        2 / Real.pi * (y * (Real.pi / 4 / nR) - x * (Real.pi / 4 / nR)) :=
      mul_le_mul_of_nonneg_left hgap_lb (by positivity)
    linarith
  have hsin0 : 0 ≤ Real.sin (y * (Real.pi / 4 / nR) - x * (Real.pi / 4 / nR)) :=
    le_trans (div_pos one_pos (by linarith : (0 : ℝ) < 2 * nR)).le hsin_lb
  have hcc : 0 < Real.cos (x * (Real.pi / 4 / nR)) * Real.cos (y * (Real.pi / 4 / nR)) :=
    mul_pos hca hcb
  have hcc1 : Real.cos (x * (Real.pi / 4 / nR)) * Real.cos (y * (Real.pi / 4 / nR)) ≤ 1 :=
    mul_le_one₀ hca1 hcb.le hcb1
  have hdiv : Real.sin (y * (Real.pi / 4 / nR) - x * (Real.pi / 4 / nR)) ≤
      Real.sin (y * (Real.pi / 4 / nR) - x * (Real.pi / 4 / nR)) /
        (Real.cos (x * (Real.pi / 4 / nR)) * Real.cos (y * (Real.pi / 4 / nR))) := by
    rw [le_div_iff₀ hcc]
    nlinarith
  rw [tan_sub_tan (ne_of_gt hca) (ne_of_gt hcb)]
  linarith

/-- Resolution of `setTimeDelayIndex` at the last position. -/
lemma setTimeDelayIndex_last (sr : ℤ) (t : ℚ) (N : ℕ) :
    setTimeDelayIndex sr t N (N - 1) = setTimeMinDelay sr t := by
  unfold setTimeDelayIndex
  rw [if_pos rfl]

/-- Resolution of `setTimeDelayIndex` at position `0` when at least two comb
filters exist. -/
lemma setTimeDelayIndex_zero (sr : ℤ) (t : ℚ) (N : ℕ) (hN : 2 ≤ N) :
    setTimeDelayIndex sr t N 0 = setTimeDelay0 sr t := by
  unfold setTimeDelayIndex
  rw [if_neg (by omega), if_pos rfl]

/-- Resolution of `setTimeDelayIndex` at an intermediate position. -/
lemma setTimeDelayIndex_mid (sr : ℤ) (t : ℚ) (N i : ℕ) (hN : 3 ≤ N)
    (h1 : 1 ≤ i) (h2 : i ≤ N - 2) :
    setTimeDelayIndex sr t N i = setTimeIntermDelay sr t N i := by
  unfold setTimeDelayIndex
  rw [if_neg (by omega), if_neg (by omega)]

/-- The intermediate delay is a floor whenever the computed value is
nonnegative. -/
lemma setTimeIntermDelay_eq_floor (sr : ℤ) (t : ℚ) (N i : ℕ)
    (hM : 0 ≤ setTimeDelay0 sr t)
    (ht : 0 ≤ Real.tan ((i : ℝ) * (Real.pi / 4 / ((N - 1 : ℕ) : ℝ)))) :
    setTimeIntermDelay sr t N i =
      ⌊(setTimeDelay0 sr t : ℝ) *
        (Real.tan ((i : ℝ) * (Real.pi / 4 / ((N - 1 : ℕ) : ℝ))) + 2) / 3⌋ := by
  unfold setTimeIntermDelay
  exact ctruncR_of_nonneg
    (div_nonneg (mul_nonneg (by exact_mod_cast hM) (by linarith)) (by norm_num))

/-- C9, counterexample.  The claim requires every intermediate delay to lie
strictly between `delay[N-1]` and `delay[0]` and the delay indices to increase
monotonically with filter index.  With `sampleRate = 1` and `t = 3` (so
`delayIndices[0] = 3`), filter `1` of `20` gets
`trunc(3 * (tan(pi/76) + 2) / 3) = 2`, which equals `delay[19] = round(3/1.5)`
— not strictly above it — and is below `delay[0] = 3`, so the sequence is not
monotonically increasing from index `0` either. -/
theorem setTime_distribution_claim_false :
    setTimeDelayIndex 1 3 20 0 = 3 ∧
    setTimeDelayIndex 1 3 20 1 = 2 ∧
    setTimeDelayIndex 1 3 20 19 = 2 ∧
    ¬ (setTimeDelayIndex 1 3 20 19 < setTimeDelayIndex 1 3 20 1) ∧
    ¬ (setTimeDelayIndex 1 3 20 0 < setTimeDelayIndex 1 3 20 1) := by
  have hd0 : setTimeDelay0 1 3 = 3 := by
    norm_num [setTimeDelay0, croundQ, round_eq]
  have h0 : setTimeDelayIndex 1 3 20 0 = 3 := by
    rw [setTimeDelayIndex_zero 1 3 20 (by norm_num), hd0]
  have h19 : setTimeDelayIndex 1 3 20 19 = 2 := by
    have : (19 : ℕ) = 20 - 1 := by norm_num
    rw [this, setTimeDelayIndex_last]
    rw [setTimeMinDelay, hd0]
    norm_num [croundQ, round_eq]
  have hπ := Real.pi_pos
  have harg : ((1 : ℕ) : ℝ) * (Real.pi / 4 / ((20 - 1 : ℕ) : ℝ)) = Real.pi / 76 := by
    have h19 : ((20 - 1 : ℕ) : ℝ) = 19 := by norm_num
    rw [h19, Nat.cast_one, one_mul]
    ring
  have ht0 : 0 < Real.tan (Real.pi / 76) := by
    apply Real.tan_pos_of_pos_of_lt_pi_div_two
    · positivity
    · linarith
  have ht1 : Real.tan (Real.pi / 76) < 1 := by
    have h := Real.tan_lt_tan_of_nonneg_of_lt_pi_div_two
      (by positivity : (0 : ℝ) ≤ Real.pi / 76)
      (by linarith : Real.pi / 4 < Real.pi / 2)
      (by linarith : Real.pi / 76 < Real.pi / 4)
    rwa [Real.tan_pi_div_four] at h
  have h1 : setTimeDelayIndex 1 3 20 1 = 2 := by
    rw [setTimeDelayIndex_mid 1 3 20 1 (by norm_num) (by norm_num) (by norm_num),
      setTimeIntermDelay_eq_floor 1 3 20 1 (by rw [hd0]; norm_num)
        (by rw [harg]; exact ht0.le),
      hd0, harg]
    have hsimp : ((3 : ℤ) : ℝ) * (Real.tan (Real.pi / 76) + 2) / 3 =
        Real.tan (Real.pi / 76) + 2 := by
      push_cast
      ring
    rw [hsimp]
    have hfl : ⌊Real.tan (Real.pi / 76)⌋ = 0 :=
      Int.floor_eq_zero_iff.mpr ⟨ht0.le, ht1⟩
    have : ⌊Real.tan (Real.pi / 76) + 2⌋ = ⌊Real.tan (Real.pi / 76) + (2 : ℤ)⌋ := by
      norm_num
    rw [this, Int.floor_add_int, hfl]
    norm_num
  refine ⟨h0, h1, h19, ?_, ?_⟩
  · rw [h1, h19]
    decide
  · rw [h0, h1]
    decide

/-- C9, amended.  With `N ≥ 3` comb filters, whenever the computed maximum
delay `delayIndices[0] = round(sampleRate * t)` is at least `6 * (N - 1)`,
every intermediate delay index (`1 ≤ i ≤ N - 2`) lies strictly between
`delay[N-1]` and `delay[0]`, and the intermediate delay indices are strictly
increasing with filter index.  (The full sequence is not monotone — `delay[0]`
is the maximum, as the counterexample records — and for small maximum delays
the strict-betweenness can collapse to equality.) -/
theorem setTime_delay_distribution (sr : ℤ) (t : ℚ) (N : ℕ) (hN : 3 ≤ N)
    (hM : 6 * ((N : ℤ) - 1) ≤ setTimeDelay0 sr t) :
    (∀ i : ℕ, 1 ≤ i → i ≤ N - 2 →
      setTimeDelayIndex sr t N (N - 1) < setTimeDelayIndex sr t N i ∧
      setTimeDelayIndex sr t N i < setTimeDelayIndex sr t N 0) ∧
    (∀ i j : ℕ, 1 ≤ i → i < j → j ≤ N - 2 →
      setTimeDelayIndex sr t N i < setTimeDelayIndex sr t N j) := by
  have hNZ3 : (3 : ℤ) ≤ (N : ℤ) := by exact_mod_cast hN
  have hM12 : (12 : ℤ) ≤ setTimeDelay0 sr t := by linarith
  have hM0 : (0 : ℤ) ≤ setTimeDelay0 sr t := by linarith
  have hNR : ((N - 1 : ℕ) : ℝ) = (N : ℝ) - 1 := by
    rw [Nat.cast_sub (by omega), Nat.cast_one]
  have hnR2 : (2 : ℝ) ≤ ((N - 1 : ℕ) : ℝ) := by
    rw [hNR]
    have : (3 : ℝ) ≤ (N : ℝ) := by exact_mod_cast hN
    linarith
  have hnRpos : (0 : ℝ) < ((N - 1 : ℕ) : ℝ) := by linarith
  have hMR6 : 6 * ((N - 1 : ℕ) : ℝ) ≤ (setTimeDelay0 sr t : ℝ) := by
    rw [hNR]
    exact_mod_cast hM
  have hMRpos : (0 : ℝ) < (setTimeDelay0 sr t : ℝ) := by
    have : (12 : ℝ) ≤ (setTimeDelay0 sr t : ℝ) := by exact_mod_cast hM12
    linarith
  -- the cast bound on every position in [1, N-2]
  have hxbound : ∀ i : ℕ, 1 ≤ i → i ≤ N - 2 →
      (1 : ℝ) ≤ (i : ℝ) ∧ (i : ℝ) ≤ ((N - 1 : ℕ) : ℝ) - 1 := by
    intro i h1 h2
    constructor
    · exact_mod_cast h1
    · rw [hNR]
      have : (i : ℝ) ≤ ((N - 2 : ℕ) : ℝ) := by exact_mod_cast h2
      have h3 : ((N - 2 : ℕ) : ℝ) = (N : ℝ) - 2 := by
        rw [Nat.cast_sub (by omega)]
        norm_num
      linarith [h3 ▸ this]
  -- the rounded minimum delay is at most 2M/3 + 1/2
  have hminQ : ((setTimeMinDelay sr t : ℤ) : ℚ) ≤
      2 * ((setTimeDelay0 sr t : ℤ) : ℚ) / 3 + 1 / 2 := by
    unfold setTimeMinDelay
    have hq0 : (0 : ℚ) ≤ (setTimeDelay0 sr t : ℚ) / (3 / 2) :=
      div_nonneg (by exact_mod_cast hM0) (by norm_num)
    rw [croundQ_of_nonneg hq0]
    have h := round_le_add_half ((setTimeDelay0 sr t : ℚ) / (3 / 2))
    have heq : (setTimeDelay0 sr t : ℚ) / (3 / 2) =
        2 * ((setTimeDelay0 sr t : ℤ) : ℚ) / 3 := by
      ring
    rw [heq] at h ⊢
    exact h
  have hminR : ((setTimeMinDelay sr t : ℤ) : ℝ) ≤
      2 * (setTimeDelay0 sr t : ℝ) / 3 + 1 / 2 := by
    have h2 : ((((setTimeMinDelay sr t : ℤ) : ℚ)) : ℝ) ≤
        ((2 * ((setTimeDelay0 sr t : ℤ) : ℚ) / 3 + 1 / 2 : ℚ) : ℝ) :=
      Rat.cast_le.mpr hminQ
    push_cast at h2
    linarith
  constructor
  · intro i h1 h2
    obtain ⟨hx1, hx2⟩ := hxbound i h1 h2
    obtain ⟨htlb, htub⟩ := tan_warp_bounds ((N - 1 : ℕ) : ℝ) (i : ℝ) hnR2 hx1 hx2
    have htpos : 0 < Real.tan ((i : ℝ) * (Real.pi / 4 / ((N - 1 : ℕ) : ℝ))) := by
      have : (0 : ℝ) < Real.pi / 4 / ((N - 1 : ℕ) : ℝ) := by
        positivity
      linarith
    rw [setTimeDelayIndex_last, setTimeDelayIndex_zero sr t N (by omega),
      setTimeDelayIndex_mid sr t N i hN h1 h2,
      setTimeIntermDelay_eq_floor sr t N i hM0 htpos.le]
    have hπ3 := Real.pi_gt_three
    -- the product M * tan is at least 9/2
    have hMt : (9 : ℝ) / 2 ≤ (setTimeDelay0 sr t : ℝ) *
        Real.tan ((i : ℝ) * (Real.pi / 4 / ((N - 1 : ℕ) : ℝ))) := by
      have hne : ((N - 1 : ℕ) : ℝ) ≠ 0 := ne_of_gt hnRpos
      have h6d : 6 * ((N - 1 : ℕ) : ℝ) * (Real.pi / 4 / ((N - 1 : ℕ) : ℝ)) =
          3 * Real.pi / 2 := by
        calc 6 * ((N - 1 : ℕ) : ℝ) * (Real.pi / 4 / ((N - 1 : ℕ) : ℝ))
            = 6 * (Real.pi / 4) * (((N - 1 : ℕ) : ℝ) / ((N - 1 : ℕ) : ℝ)) := by ring
          _ = 6 * (Real.pi / 4) * 1 := by rw [div_self hne]
          _ = 3 * Real.pi / 2 := by ring
      calc (9 : ℝ) / 2 ≤ 3 * Real.pi / 2 := by linarith
        _ = 6 * ((N - 1 : ℕ) : ℝ) * (Real.pi / 4 / ((N - 1 : ℕ) : ℝ)) := h6d.symm
        _ ≤ (setTimeDelay0 sr t : ℝ) * (Real.pi / 4 / ((N - 1 : ℕ) : ℝ)) :=
            mul_le_mul_of_nonneg_right hMR6 (by positivity)
        _ ≤ (setTimeDelay0 sr t : ℝ) *
            Real.tan ((i : ℝ) * (Real.pi / 4 / ((N - 1 : ℕ) : ℝ))) :=
            mul_le_mul_of_nonneg_left htlb.le hMRpos.le
    constructor
    · rw [Int.lt_iff_add_one_le, Int.le_floor]
      push_cast
      linarith
    · rw [Int.floor_lt]
      nlinarith
  · intro i j h1 hij h2
    obtain ⟨hx1, hx2⟩ := hxbound i h1 (by omega)
    obtain ⟨hy1, hy2⟩ := hxbound j (by omega) h2
    have hxy : (i : ℝ) + 1 ≤ (j : ℝ) := by
      have : (i + 1 : ℕ) ≤ j := hij
      exact_mod_cast this
    have hgap := tan_warp_gap ((N - 1 : ℕ) : ℝ) (i : ℝ) (j : ℝ) hnR2 hx1 hxy hy2
    obtain ⟨hilb, _⟩ := tan_warp_bounds ((N - 1 : ℕ) : ℝ) (i : ℝ) hnR2 hx1 hx2
    obtain ⟨hjlb, _⟩ := tan_warp_bounds ((N - 1 : ℕ) : ℝ) (j : ℝ) hnR2 (by linarith) hy2
    have hdpos : (0 : ℝ) < Real.pi / 4 / ((N - 1 : ℕ) : ℝ) := by positivity
    have htipos : 0 ≤ Real.tan ((i : ℝ) * (Real.pi / 4 / ((N - 1 : ℕ) : ℝ))) := by
      linarith
    have htjpos : 0 ≤ Real.tan ((j : ℝ) * (Real.pi / 4 / ((N - 1 : ℕ) : ℝ))) := by
      linarith
    rw [setTimeDelayIndex_mid sr t N i hN h1 (by omega),
      setTimeDelayIndex_mid sr t N j hN (by omega) h2,
      setTimeIntermDelay_eq_floor sr t N i hM0 htipos,
      setTimeIntermDelay_eq_floor sr t N j hM0 htjpos]
    -- the scaled gap is at least 1
    have h3 : (3 : ℝ) ≤ (setTimeDelay0 sr t : ℝ) *
        (Real.tan ((j : ℝ) * (Real.pi / 4 / ((N - 1 : ℕ) : ℝ))) -
          Real.tan ((i : ℝ) * (Real.pi / 4 / ((N - 1 : ℕ) : ℝ)))) := by
      have hne : ((N - 1 : ℕ) : ℝ) ≠ 0 := ne_of_gt hnRpos
      have hstep : (3 : ℝ) = 6 * ((N - 1 : ℕ) : ℝ) / (2 * ((N - 1 : ℕ) : ℝ)) := by
        calc (3 : ℝ) = 3 * (((N - 1 : ℕ) : ℝ) / ((N - 1 : ℕ) : ℝ)) := by
              rw [div_self hne, mul_one]
          _ = 6 * ((N - 1 : ℕ) : ℝ) / (2 * ((N - 1 : ℕ) : ℝ)) := by ring
      calc (3 : ℝ) = 6 * ((N - 1 : ℕ) : ℝ) / (2 * ((N - 1 : ℕ) : ℝ)) := hstep
        _ ≤ (setTimeDelay0 sr t : ℝ) / (2 * ((N - 1 : ℕ) : ℝ)) :=
            (div_le_div_iff_of_pos_right (by positivity)).mpr hMR6
        _ = (setTimeDelay0 sr t : ℝ) * (1 / (2 * ((N - 1 : ℕ) : ℝ))) := by ring
        _ ≤ (setTimeDelay0 sr t : ℝ) *
            (Real.tan ((j : ℝ) * (Real.pi / 4 / ((N - 1 : ℕ) : ℝ))) -
              Real.tan ((i : ℝ) * (Real.pi / 4 / ((N - 1 : ℕ) : ℝ)))) :=
            mul_le_mul_of_nonneg_left hgap hMRpos.le
    rw [mul_sub] at h3
    rw [Int.lt_iff_add_one_le, Int.le_floor]
    push_cast
    have hfl := Int.floor_le ((setTimeDelay0 sr t : ℝ) *
      (Real.tan ((i : ℝ) * (Real.pi / 4 / ((N - 1 : ℕ) : ℝ))) + 2) / 3)
    linarith

/-- C9, witness: `sampleRate = 48000`, `t = 30`, `N = 20` (so
`delayIndices[0] = 1440000 ≥ 114`), positions `5 < 6`. -/
theorem setTime_delay_distribution_witness :
    (setTimeDelayIndex 48000 30 20 19 < setTimeDelayIndex 48000 30 20 5 ∧
      setTimeDelayIndex 48000 30 20 5 < setTimeDelayIndex 48000 30 20 0) ∧
    setTimeDelayIndex 48000 30 20 5 < setTimeDelayIndex 48000 30 20 6 :=
  ⟨(setTime_delay_distribution 48000 30 20 (by norm_num)
      (by norm_num [setTimeDelay0, croundQ, round_eq])).1 5 (by norm_num) (by norm_num),
    (setTime_delay_distribution 48000 30 20 (by norm_num)
      (by norm_num [setTimeDelay0, croundQ, round_eq])).2 5 6 (by norm_num)
      (by norm_num) (by norm_num)⟩

end Gimmel
